import Mathlib

/-!
# Verification of the share-parcel-tracker CGT core

Shallow embedding of the core services of the `tracker` Django app:
`tracker/services/cgt.py`, `tracker/services/matching.py`,
`tracker/services/forecasting.py`, together with the data model of
`tracker/models/parcel.py` and `tracker/models/transaction.py`.

Modelling conventions:
* Python `Decimal` values are embedded as `ℚ` (the code relies on exact
  decimal arithmetic; every decimal is a rational).
* Calendar dates are embedded as proleptic-Gregorian day numbers (`Int`);
  `daysFromCivil` converts a `(year, month, day)` civil date to its day
  number, so `datetime.date` subtraction `(d2 - d1).days` becomes integer
  subtraction of day numbers, and date comparison becomes `Int` comparison.
* The parcel table (`Parcel.objects`) is embedded as a `List Parcel`;
  `filter`/`order_by` queries become `List.filter`/`List.insertionSort`.
* Django's `@transaction.atomic` is embedded by returning `Except`: an
  `.error` result carries no successor state, i.e. all mutations made
  inside the failed unit of work are rolled back.
-/

namespace ShareParcelTracker

/-- Day number of a proleptic-Gregorian civil date (days since 1970-01-01,
following the standard civil-from-days construction with floor division).
Modelled from the spec: stands in for Python's `datetime.date` ordinal
arithmetic, which is not part of the repository sources. -/
def daysFromCivil (y m d : Int) : Int :=
  let yAdj : Int := if m ≤ 2 then y - 1 else y
  let era : Int := yAdj / 400
  let yoe : Int := yAdj - era * 400
  let mp : Int := (m + 9) % 12
  let doy : Int := (153 * mp + 2) / 5 + d - 1
  let doe : Int := yoe * 365 + yoe / 4 - yoe / 100 + doy
  era * 146097 + doe - 719468

/-- `tracker/models/transaction.py`, class `Transaction`.
`trade_date` is a day number; `transaction_type` is the `BUY`/`SELL`
choice string. -/
structure Transaction where
  security_id : Nat
  trade_date : Int
  transaction_type : String
  quantity : ℚ
  unit_price : ℚ
  brokerage : ℚ
  total_value : ℚ
  exchange_rate : ℚ
  deriving DecidableEq, Repr

/-- `tracker/models/parcel.py`, class `Parcel`. -/
structure Parcel where
  id : Nat
  security_id : Nat
  acquisition_date : Int
  original_quantity : ℚ
  remaining_quantity : ℚ
  cost_per_unit_aud : ℚ
  total_cost_base_aud : ℚ
  is_fully_matched : Bool
  deriving DecidableEq, Repr

/-- Result record of `calculate_cgt` (`tracker/services/cgt.py`): the dict
returned by the function, one field per key. -/
structure CgtResult where
  cost_base_aud : ℚ
  proceeds_aud : ℚ
  capital_gain_loss : ℚ
  holding_period_days : Int
  cgt_discount_eligible : Bool
  discount_amount : ℚ
  net_capital_gain : ℚ
  deriving DecidableEq, Repr

/-- `tracker/services/cgt.py`, `calculate_cgt`. -/
def calculate_cgt (parcel : Parcel) (sell_transaction : Transaction)
    (matched_quantity : ℚ) : CgtResult :=
  let cost_base_aud := parcel.cost_per_unit_aud * matched_quantity
  let sell_rate := sell_transaction.exchange_rate
  let proceeds_per_unit := sell_transaction.unit_price * sell_rate
  let proceeds_aud := proceeds_per_unit * matched_quantity
  let capital_gain_loss := proceeds_aud - cost_base_aud
  let holding_period_days := sell_transaction.trade_date - parcel.acquisition_date
  let cgt_discount_eligible :=
    decide (365 < holding_period_days) && decide ((0 : ℚ) < capital_gain_loss)
  let discount_amount : ℚ :=
    if cgt_discount_eligible then capital_gain_loss * (0.5 : ℚ) else 0
  let net_capital_gain := capital_gain_loss - discount_amount
  { cost_base_aud := cost_base_aud
    proceeds_aud := proceeds_aud
    capital_gain_loss := capital_gain_loss
    holding_period_days := holding_period_days
    cgt_discount_eligible := cgt_discount_eligible
    discount_amount := discount_amount
    net_capital_gain := net_capital_gain }

/-- The worked-example parcel: acquired 2024-01-10, 100 units,
cost per unit 40.095 AUD. -/
def exampleParcel : Parcel :=
  { id := 1
    security_id := 1
    acquisition_date := daysFromCivil 2024 1 10
    original_quantity := 100
    remaining_quantity := 100
    cost_per_unit_aud := (40.095 : ℚ)
    total_cost_base_aud := (4009.5 : ℚ)
    is_fully_matched := false }

/-- The worked-example disposal: 50 units sold 2025-06-15 at 55.00/unit,
FX rate 1. -/
def exampleSell : Transaction :=
  { security_id := 1
    trade_date := daysFromCivil 2025 6 15
    transaction_type := "SELL"
    quantity := 50
    unit_price := (55.0 : ℚ)
    brokerage := 0
    total_value := (2750.0 : ℚ)
    exchange_rate := 1 }

/-- `tracker/models/parcel.py`, class `ParcelMatch`: one parcel consumed by
one sell transaction, with its CGT outcome.  `parcelId` stands for the
`parcel` foreign key (the referenced parcel's primary key). -/
structure ParcelMatch where
  parcelId : Nat
  matched_quantity : ℚ
  cost_base_aud : ℚ
  proceeds_aud : ℚ
  capital_gain_loss : ℚ
  holding_period_days : Int
  cgt_discount_eligible : Bool
  discount_amount : ℚ
  net_capital_gain : ℚ
  deriving DecidableEq, Repr

/-- The CGT fields stored on a `ParcelMatch`, reassembled as a `CgtResult`
(for comparing persisted figures with freshly computed ones). -/
def ParcelMatch.cgt (m : ParcelMatch) : CgtResult :=
  { cost_base_aud := m.cost_base_aud
    proceeds_aud := m.proceeds_aud
    capital_gain_loss := m.capital_gain_loss
    holding_period_days := m.holding_period_days
    cgt_discount_eligible := m.cgt_discount_eligible
    discount_amount := m.discount_amount
    net_capital_gain := m.net_capital_gain }

/-- `tracker/services/matching.py`, `_build_match`: an unsaved
`ParcelMatch` with computed CGT fields. -/
def _build_match (parcel : Parcel) (sell_transaction : Transaction)
    (qty : ℚ) : ParcelMatch :=
  let cgt := calculate_cgt parcel sell_transaction qty
  { parcelId := parcel.id
    matched_quantity := qty
    cost_base_aud := cgt.cost_base_aud
    proceeds_aud := cgt.proceeds_aud
    capital_gain_loss := cgt.capital_gain_loss
    holding_period_days := cgt.holding_period_days
    cgt_discount_eligible := cgt.cgt_discount_eligible
    discount_amount := cgt.discount_amount
    net_capital_gain := cgt.net_capital_gain }

/-- The `order_by` key of `_match_auto`: ascending acquisition date for
`fifo` (`"acquisition_date"`), descending for `lifo`
(`"-acquisition_date"`). -/
def acqLe (fifo : Bool) (a b : Parcel) : Prop :=
  if fifo then a.acquisition_date ≤ b.acquisition_date
  else b.acquisition_date ≤ a.acquisition_date

instance (fifo : Bool) : DecidableRel (acqLe fifo) := fun a b => by
  unfold acqLe
  infer_instance

instance (fifo : Bool) : IsTotal Parcel (acqLe fifo) where
  total := by
    intro a b
    unfold acqLe
    cases fifo <;> simp <;> exact Int.le_total _ _

instance (fifo : Bool) : IsTrans Parcel (acqLe fifo) where
  trans := by
    intro a b c h1 h2
    unfold acqLe at h1 h2 ⊢
    cases fifo
    · simp only [Bool.false_eq_true, if_false] at h1 h2 ⊢
      exact le_trans h2 h1
    · simp only [if_true] at h1 h2 ⊢
      exact le_trans h1 h2

/-- The candidate query of `_match_auto`
(`tracker/services/matching.py:87-90`): parcels of the sell's security
with remaining quantity > 0, ordered by acquisition date — ascending for
`fifo`, descending for `lifo`.  The database `order_by` is modelled by a
stable insertion sort. -/
def available_parcels (db : List Parcel) (security_id : Nat)
    (fifo : Bool) : List Parcel :=
  (db.filter fun p =>
      p.security_id == security_id && decide (0 < p.remaining_quantity)).insertionSort
    (acqLe fifo)

/-- The consuming loop of `_match_auto`
(`tracker/services/matching.py:95-101`): walk the ordered parcels taking
`min(parcel.remaining_quantity, remaining)` from each while quantity is
still needed.  Returns the matches together with the unsatisfied
remainder. -/
def autoLoop (sell_transaction : Transaction) :
    List Parcel → ℚ → List ParcelMatch × ℚ
  | [], remaining => ([], remaining)
  | parcel :: ps, remaining =>
    if remaining ≤ 0 then ([], remaining)
    else
      let qty_from_parcel := min parcel.remaining_quantity remaining
      let rest := autoLoop sell_transaction ps (remaining - qty_from_parcel)
      (_build_match parcel sell_transaction qty_from_parcel :: rest.1, rest.2)

/-- `tracker/services/matching.py`, `_match_auto`: FIFO or LIFO automatic
matching (`fifo = true` for `"fifo"`, `false` for `"lifo"`), failing when
the candidate parcels cannot fully satisfy the sell quantity. -/
def _match_auto (sell_transaction : Transaction) (sell_qty : ℚ)
    (fifo : Bool) (db : List Parcel) : Except String (List ParcelMatch) :=
  let parcels := available_parcels db sell_transaction.security_id fifo
  let r := autoLoop sell_transaction parcels sell_qty
  if 0 < r.2 then .error "Insufficient parcels" else .ok r.1

/-- The validating loop of `_match_manual`
(`tracker/services/matching.py:128-142`): walk the zipped
(parcel, quantity) pairs, skipping non-positive quantities, rejecting a
quantity above the parcel's remaining quantity or a parcel of another
security, and accumulating the total of the matched quantities. -/
def manualLoop (sell_transaction : Transaction) :
    List (Parcel × ℚ) → Except String (List ParcelMatch × ℚ)
  | [] => .ok ([], 0)
  | (parcel, qty) :: rest =>
    if qty ≤ 0 then manualLoop sell_transaction rest
    else if parcel.remaining_quantity < qty then
      .error "Cannot match more than remaining"
    else if parcel.security_id ≠ sell_transaction.security_id then
      .error "Parcel is for a different security"
    else
      match manualLoop sell_transaction rest with
      | .error e => .error e
      | .ok (ms, total) =>
        .ok (_build_match parcel sell_transaction qty :: ms, total + qty)

/-- `tracker/services/matching.py`, `_match_manual`: manual matching with
user-specified parcel/quantity pairs.  Empty (or absent) inputs and
length mismatches are rejected, then the pair loop runs, then the total
matched quantity must equal the sell quantity. -/
def _match_manual (sell_transaction : Transaction) (sell_qty : ℚ)
    (parcels : List Parcel) (quantities : List ℚ) :
    Except String (List ParcelMatch) :=
  if parcels.isEmpty || quantities.isEmpty then
    .error "Manual matching requires parcels and quantities"
  else if parcels.length ≠ quantities.length then
    .error "parcels and quantities must have the same length"
  else
    match manualLoop sell_transaction (parcels.zip quantities) with
    | .error e => .error e
    | .ok (ms, total_matched) =>
      if total_matched ≠ sell_qty then
        .error "Total matched quantity does not equal sell quantity"
      else .ok ms

/-- `tracker/services/matching.py`, `match`: strategy dispatch for a SELL
transaction. -/
def matchSell (sell_transaction : Transaction) (strategy : String)
    (parcels : List Parcel) (quantities : List ℚ) (db : List Parcel) :
    Except String (List ParcelMatch) :=
  if sell_transaction.transaction_type ≠ "SELL" then
    .error "Transaction must be a SELL"
  else if strategy = "manual" then
    _match_manual sell_transaction sell_transaction.quantity parcels quantities
  else if strategy = "fifo" || strategy = "lifo" then
    _match_auto sell_transaction sell_transaction.quantity (strategy = "fifo") db
  else .error "Unknown strategy"

/-- Look a parcel up by primary key
(`Parcel.objects.select_for_update().get(pk=...)`). -/
def getParcel (db : List Parcel) (pid : Nat) : Option Parcel :=
  db.find? fun p => p.id == pid

/-- Write an updated parcel row back (`parcel.save(...)`): every row with
the same primary key is replaced. -/
def updateParcel (db : List Parcel) (p : Parcel) : List Parcel :=
  db.map fun q => if q.id == p.id then p else q

/-- One committed decrement (`tracker/services/matching.py:181-185`):
subtract the matched quantity from the parcel's remaining quantity and
set the depleted flag when the new remaining quantity is exactly zero. -/
def decrementParcel (parcel : Parcel) (qty : ℚ) : Parcel :=
  let r := parcel.remaining_quantity - qty
  { parcel with
    remaining_quantity := r
    is_fully_matched := if r = 0 then true else parcel.is_fully_matched }

/-- The body of `confirm_matches` (`tracker/services/matching.py:168-192`):
for each match in order, re-read its parcel from the current table state,
fail when the matched quantity exceeds the freshly read remaining
quantity (or the parcel row is gone), otherwise decrement and persist. -/
def confirmLoop (db : List Parcel) :
    List ParcelMatch → Except String (List Parcel × List ParcelMatch)
  | [] => .ok (db, [])
  | m :: ms =>
    match getParcel db m.parcelId with
    | none => .error "Parcel matching query does not exist"
    | some parcel =>
      if parcel.remaining_quantity < m.matched_quantity then
        .error "Race condition: remaining_quantity < matched_quantity"
      else
        match confirmLoop (updateParcel db (decrementParcel parcel m.matched_quantity)) ms with
        | .error e => .error e
        | .ok (db', saved) => .ok (db', m :: saved)

/-- `tracker/services/matching.py`, `confirm_matches`: the loop runs under
`@transaction.atomic`, so an error result carries no successor state
(every mutation made so far is rolled back). -/
def confirm_matches (db : List Parcel) (ms : List ParcelMatch) :
    Except String (List Parcel × List ParcelMatch) :=
  confirmLoop db ms

/-- The parcel-table state after a call to `confirm_matches`: the new
state on success, the unchanged pre-commit state on failure (Django's
`@transaction.atomic` rolls the unit of work back). -/
def commitState (db : List Parcel) (ms : List ParcelMatch) : List Parcel :=
  match confirm_matches db ms with
  | .ok r => r.1
  | .error _ => db

/-- The decrement step of a single match against the whole table, used to
describe the cumulative effect of a successful commit. -/
def applyMatch (db : List Parcel) (m : ParcelMatch) : List Parcel :=
  match getParcel db m.parcelId with
  | none => db
  | some parcel => updateParcel db (decrementParcel parcel m.matched_quantity)

/-- A parcel acquired at day number 0 with cost per unit 10, for the
discount-boundary checks. -/
def boundaryParcel : Parcel :=
  { id := 2
    security_id := 1
    acquisition_date := 0
    original_quantity := 10
    remaining_quantity := 10
    cost_per_unit_aud := 10
    total_cost_base_aud := 100
    is_fully_matched := false }

/-- A disposal of the boundary parcel's security at 20/unit on day `d`. -/
def sellAt (d : Int) : Transaction :=
  { security_id := 1
    trade_date := d
    transaction_type := "SELL"
    quantity := 1
    unit_price := 20
    brokerage := 0
    total_value := 20
    exchange_rate := 1 }

/-- A disposal of the boundary parcel's security at 5/unit (a loss) on day
366. -/
def lossSellAt366 : Transaction :=
  { security_id := 1
    trade_date := 366
    transaction_type := "SELL"
    quantity := 1
    unit_price := 5
    brokerage := 0
    total_value := 5
    exchange_rate := 1 }

end ShareParcelTracker

namespace ShareParcelTracker

/-- C3: for every parcel, disposal and matched quantity, `calculate_cgt`
returns cost base `cost_per_unit × qty`, proceeds
`unit_price × fx_rate × qty` (brokerage not subtracted), gain/loss
`proceeds − cost base`, net gain `gain/loss − discount`, and holding days
equal to the day difference between trade date and acquisition date; the
spec's worked example (cost/unit 40.095, 50 units at 55.00, acquired
2024-01-10, sold 2025-06-15) yields cost base 2004.75, proceeds 2750,
gain/loss 745.25, 522 holding days, discount 372.625, net gain 372.625. -/
theorem calculate_cgt_formulas_and_example :
    (∀ (p : Parcel) (s : Transaction) (q : ℚ),
      (calculate_cgt p s q).cost_base_aud = p.cost_per_unit_aud * q ∧
      (calculate_cgt p s q).proceeds_aud = s.unit_price * s.exchange_rate * q ∧
      (calculate_cgt p s q).capital_gain_loss =
        (calculate_cgt p s q).proceeds_aud - (calculate_cgt p s q).cost_base_aud ∧
      (calculate_cgt p s q).net_capital_gain =
        (calculate_cgt p s q).capital_gain_loss -
          (calculate_cgt p s q).discount_amount ∧
      (calculate_cgt p s q).holding_period_days =
        s.trade_date - p.acquisition_date) ∧
    ((calculate_cgt exampleParcel exampleSell 50).cost_base_aud = (2004.75 : ℚ) ∧
      (calculate_cgt exampleParcel exampleSell 50).proceeds_aud = (2750 : ℚ) ∧
      (calculate_cgt exampleParcel exampleSell 50).capital_gain_loss = (745.25 : ℚ) ∧
      (calculate_cgt exampleParcel exampleSell 50).holding_period_days = 522 ∧
      (calculate_cgt exampleParcel exampleSell 50).cgt_discount_eligible = true ∧
      (calculate_cgt exampleParcel exampleSell 50).discount_amount = (372.625 : ℚ) ∧
      (calculate_cgt exampleParcel exampleSell 50).net_capital_gain = (372.625 : ℚ)) := by
  constructor
  · intro p s q
    exact ⟨rfl, rfl, rfl, rfl, rfl⟩
  · refine ⟨?_, ?_, ?_, ?_, ?_, ?_, ?_⟩ <;>
      norm_num [calculate_cgt, exampleParcel, exampleSell, daysFromCivil]

/-- C4: `calculate_cgt` marks a slice discount-eligible iff the holding
period strictly exceeds 365 days and the gain is strictly positive, sets
the discount to half the gain exactly when eligible, a non-positive gain
never receives a discount, and the 365/366-day boundary is strict. -/
theorem calculate_cgt_discount_rule :
    (∀ (p : Parcel) (s : Transaction) (q : ℚ),
      ((calculate_cgt p s q).cgt_discount_eligible = true ↔
        365 < (calculate_cgt p s q).holding_period_days ∧
          0 < (calculate_cgt p s q).capital_gain_loss) ∧
      (calculate_cgt p s q).discount_amount =
        (if (calculate_cgt p s q).cgt_discount_eligible
          then (calculate_cgt p s q).capital_gain_loss * (0.5 : ℚ) else 0) ∧
      ((calculate_cgt p s q).capital_gain_loss ≤ 0 →
        (calculate_cgt p s q).cgt_discount_eligible = false ∧
        (calculate_cgt p s q).discount_amount = 0)) ∧
    (calculate_cgt boundaryParcel (sellAt 365) 1).cgt_discount_eligible = false ∧
    (calculate_cgt boundaryParcel (sellAt 366) 1).cgt_discount_eligible = true ∧
    (calculate_cgt boundaryParcel lossSellAt366 1).cgt_discount_eligible = false ∧
    (calculate_cgt boundaryParcel lossSellAt366 1).discount_amount = 0 := by
  refine ⟨fun p s q => ⟨?_, rfl, fun hloss => ?_⟩, ?_, ?_, ?_, ?_⟩
  · simp [calculate_cgt]
  · have h' : s.unit_price * s.exchange_rate * q - p.cost_per_unit_aud * q ≤ 0 := by
      simpa [calculate_cgt] using hloss
    constructor
    · simp only [calculate_cgt]
      simp only [Bool.and_eq_false_iff, decide_eq_false_iff_not, not_lt]
      right
      linarith
    · simp [calculate_cgt]
      intro _ h2
      linarith
  all_goals norm_num [calculate_cgt, boundaryParcel, sellAt, lossSellAt366]

/-- Witness for C4 at the concrete loss disposal: the gain is non-positive
and the slice is ineligible with zero discount. -/
theorem calculate_cgt_discount_rule_loss_witness :
    (calculate_cgt boundaryParcel lossSellAt366 1).capital_gain_loss ≤ 0 ∧
    ((calculate_cgt boundaryParcel lossSellAt366 1).cgt_discount_eligible = false ∧
      (calculate_cgt boundaryParcel lossSellAt366 1).discount_amount = 0) :=
  ⟨by norm_num [calculate_cgt, boundaryParcel, lossSellAt366],
    (calculate_cgt_discount_rule.1 boundaryParcel lossSellAt366 1).2.2
      (by norm_num [calculate_cgt, boundaryParcel, lossSellAt366])⟩

/-- The per-step commit check: the match's parcel is found in the current
table state and its freshly read remaining quantity is at least the
matched quantity. -/
def matchOk (db : List Parcel) (m : ParcelMatch) : Prop :=
  ∃ p, getParcel db m.parcelId = some p ∧
    m.matched_quantity ≤ p.remaining_quantity

theorem updateParcel_map_id (db : List Parcel) (p : Parcel) :
    (updateParcel db p).map (·.id) = db.map (·.id) := by
  induction db with
  | nil => rfl
  | cons q qs ih =>
    simp only [updateParcel, List.map_cons] at ih ⊢
    congr 1
    by_cases h : q.id = p.id
    · simp [h]
    · simp [h]

theorem applyMatch_map_id (db : List Parcel) (m : ParcelMatch) :
    (applyMatch db m).map (·.id) = db.map (·.id) := by
  unfold applyMatch
  cases h : getParcel db m.parcelId with
  | none => rfl
  | some p => exact updateParcel_map_id db _

theorem foldl_applyMatch_map_id (ms : List ParcelMatch) :
    ∀ db : List Parcel, (ms.foldl applyMatch db).map (·.id) = db.map (·.id) := by
  induction ms with
  | nil => intro db; rfl
  | cons m ms ih =>
    intro db
    simpa [List.foldl_cons, ih (applyMatch db m)] using applyMatch_map_id db m

theorem getParcel_eq_some_id {db : List Parcel} {pid : Nat} {p : Parcel}
    (h : getParcel db pid = some p) : p.id = pid := by
  have := List.find?_some h
  simpa using this

theorem getParcel_isSome_of_id_mem {db : List Parcel} {pid : Nat}
    (h : pid ∈ db.map (·.id)) : ∃ p, getParcel db pid = some p := by
  rcases List.mem_map.1 h with ⟨p, hp, hid⟩
  have : (db.find? fun q => q.id == pid).isSome := by
    rw [List.find?_isSome]
    exact ⟨p, hp, by simp [hid]⟩
  rcases Option.isSome_iff_exists.1 this with ⟨q, hq⟩
  exact ⟨q, hq⟩

theorem confirmLoop_ok_eq (ms : List ParcelMatch) :
    ∀ (db db' : List Parcel) (saved : List ParcelMatch),
      confirmLoop db ms = .ok (db', saved) →
      saved = ms ∧ db' = ms.foldl applyMatch db := by
  induction ms with
  | nil =>
    intro db db' saved h
    simp only [confirmLoop, Except.ok.injEq, Prod.mk.injEq] at h
    simp [← h.1, ← h.2]
  | cons m ms ih =>
    intro db db' saved h
    simp only [confirmLoop] at h
    split at h
    · exact absurd h (by simp)
    next parcel hg =>
      split at h
      · exact absurd h (by simp)
      next hcmp =>
        split at h
        · exact absurd h (by simp)
        next db2 saved2 hrec =>
          simp only [Except.ok.injEq, Prod.mk.injEq] at h
          obtain ⟨hdb, hsv⟩ := h
          obtain ⟨h1, h2⟩ := ih _ _ _ hrec
          subst hdb
          constructor
          · rw [← hsv, h1]
          · rw [h2, List.foldl_cons]
            congr 1
            simp [applyMatch, hg]

theorem confirmLoop_isOk_iff (ms : List ParcelMatch) :
    ∀ db : List Parcel,
      (∃ r, confirmLoop db ms = .ok r) ↔
        ∀ i : Fin ms.length,
          matchOk ((ms.take i.1).foldl applyMatch db) (ms.get i) := by
  induction ms with
  | nil =>
    intro db
    constructor
    · intro _ i; exact absurd i.2 (by simp)
    · intro _; exact ⟨(db, []), rfl⟩
  | cons m ms ih =>
    intro db
    constructor
    · rintro ⟨r, hr⟩ i
      simp only [confirmLoop] at hr
      split at hr
      · exact absurd hr (by simp)
      next parcel hg =>
        split at hr
        · exact absurd hr (by simp)
        next hcmp =>
          split at hr
          · exact absurd hr (by simp)
          next db2 saved2 hrec =>
            have hok : ∃ r2, confirmLoop (updateParcel db (decrementParcel parcel m.matched_quantity)) ms = .ok r2 :=
              ⟨(db2, saved2), hrec⟩
            have happ : applyMatch db m = updateParcel db (decrementParcel parcel m.matched_quantity) := by
              simp [applyMatch, hg]
            rcases i with ⟨i, hi⟩
            cases i with
            | zero =>
              exact ⟨parcel, hg, not_lt.1 hcmp⟩
            | succ j =>
              have hj : j < ms.length := by simpa using hi
              have hx := (ih (updateParcel db (decrementParcel parcel m.matched_quantity))).1 hok ⟨j, hj⟩
              simpa [List.take_succ_cons, happ] using hx
    · intro hall
      have h0 := hall ⟨0, by simp⟩
      rcases h0 with ⟨parcel, hg0, hle0⟩
      have hg : getParcel db m.parcelId = some parcel := hg0
      have hle : m.matched_quantity ≤ parcel.remaining_quantity := hle0
      have happ : applyMatch db m = updateParcel db (decrementParcel parcel m.matched_quantity) := by
        simp [applyMatch, hg]
      have hrest : ∀ i : Fin ms.length,
          matchOk ((ms.take i.1).foldl applyMatch
            (updateParcel db (decrementParcel parcel m.matched_quantity))) (ms.get i) := by
        intro i
        rcases i with ⟨j, hj⟩
        have hx := hall ⟨j + 1, by simpa using hj⟩
        simpa [List.take_succ_cons, happ] using hx
      rcases (ih (updateParcel db (decrementParcel parcel m.matched_quantity))).2 hrest with ⟨⟨db2, sv2⟩, hr⟩
      refine ⟨(db2, m :: sv2), ?_⟩
      simp only [confirmLoop, hg]
      rw [if_neg (not_lt.2 hle)]
      simp [hr]

/-- C1: a commit fails exactly when some proposed allocation's matched
quantity exceeds the freshly re-read remaining quantity of its parcel in
the sequentially updated table state; on failure the post-commit state
equals the pre-commit state (the atomic unit of work is rolled back), and
on success every allocation is persisted and each referenced parcel is
decremented by its matched quantity, in the order given.  The hypothesis
says every match references an existing parcel row (a foreign-key fact of
the persisted model). -/
theorem confirm_matches_atomic_commit (db : List Parcel) (ms : List ParcelMatch)
    (hex : ∀ m ∈ ms, m.parcelId ∈ db.map (·.id)) :
    ((∃ e, confirm_matches db ms = .error e) → commitState db ms = db) ∧
    (∀ (db' : List Parcel) (saved : List ParcelMatch),
      confirm_matches db ms = .ok (db', saved) →
        saved = ms ∧ db' = ms.foldl applyMatch db) ∧
    ((∃ e, confirm_matches db ms = .error e) ↔
      ∃ i : Fin ms.length, ∃ p,
        getParcel ((ms.take i.1).foldl applyMatch db) (ms.get i).parcelId = some p ∧
        p.remaining_quantity < (ms.get i).matched_quantity) := by
  refine ⟨?_, ?_, ?_⟩
  · rintro ⟨e, he⟩
    simp [commitState, he]
  · intro db' saved h
    exact confirmLoop_ok_eq ms db db' saved h
  · have hnotok : (∃ e, confirm_matches db ms = .error e) ↔
        ¬ (∃ r, confirmLoop db ms = .ok r) := by
      constructor
      · rintro ⟨e, he⟩ ⟨r, hr⟩
        rw [confirm_matches] at he
        rw [he] at hr
        exact absurd hr (by simp)
      · intro hno
        cases hc : confirm_matches db ms with
        | error e => exact ⟨e, rfl⟩
        | ok r => exact absurd ⟨r, hc⟩ hno
    rw [hnotok, confirmLoop_isOk_iff]
    constructor
    · intro hno
      rcases not_forall.1 hno with ⟨i, hi⟩
      refine ⟨i, ?_⟩
      have hid : (ms.get i).parcelId ∈
          ((ms.take i.1).foldl applyMatch db).map (·.id) := by
        rw [foldl_applyMatch_map_id]
        exact hex _ (List.get_mem ms i.1 i.2)
      rcases getParcel_isSome_of_id_mem hid with ⟨p, hp⟩
      refine ⟨p, hp, ?_⟩
      by_contra hcmp
      exact hi ⟨p, hp, not_lt.1 hcmp⟩
    · rintro ⟨i, p, hp, hcmp⟩ hall
      rcases hall i with ⟨q, hq, hle⟩
      rw [hp] at hq
      cases hq
      exact absurd hle (not_le.2 hcmp)

/-- A parcel with 3 units remaining, for the commit-failure witness. -/
def raceParcel : Parcel :=
  { id := 7
    security_id := 1
    acquisition_date := 0
    original_quantity := 10
    remaining_quantity := 3
    cost_per_unit_aud := 10
    total_cost_base_aud := 100
    is_fully_matched := false }

/-- A proposed allocation of 5 units of `raceParcel`, more than its
remaining 3 units (a lost race). -/
def raceMatch : ParcelMatch :=
  { parcelId := 7
    matched_quantity := 5
    cost_base_aud := 50
    proceeds_aud := 60
    capital_gain_loss := 10
    holding_period_days := 10
    cgt_discount_eligible := false
    discount_amount := 0
    net_capital_gain := 10 }

/-- Witness for C1: committing an allocation of 5 units against a parcel
with only 3 remaining fails, and the post-commit table state equals the
pre-commit state. -/
theorem confirm_matches_atomic_commit_witness :
    (∀ m ∈ [raceMatch], m.parcelId ∈ ([raceParcel].map (·.id))) ∧
    commitState [raceParcel] [raceMatch] = [raceParcel] :=
  ⟨by decide,
    (confirm_matches_atomic_commit [raceParcel] [raceMatch] (by decide)).1
      ⟨"Race condition: remaining_quantity < matched_quantity", rfl⟩⟩

/-- The parcel invariant of the data model
(`tracker/models/parcel.py`, spec section 3): remaining quantity between
zero and the original quantity, and the depleted flag set exactly when
the remaining quantity is zero. -/
def parcelInv (p : Parcel) : Prop :=
  0 ≤ p.remaining_quantity ∧ p.remaining_quantity ≤ p.original_quantity ∧
    (p.is_fully_matched = true ↔ p.remaining_quantity = 0)

theorem mem_updateParcel {db : List Parcel} {p x : Parcel}
    (hx : x ∈ updateParcel db p) : x ∈ db ∨ x = p := by
  rcases List.mem_map.1 hx with ⟨q, hq, hxq⟩
  by_cases h : q.id = p.id
  · right; rw [← hxq]; simp [h]
  · left; rw [← hxq]; simp [h]; exact hq

theorem mem_of_getParcel_eq_some {db : List Parcel} {pid : Nat} {p : Parcel}
    (h : getParcel db pid = some p) : p ∈ db :=
  List.mem_of_find?_eq_some h

/-- C7 (amended): a successful commit of allocations with positive matched
quantities preserves the parcel invariant
`0 ≤ remaining ≤ original ∧ (depleted ⇔ remaining = 0)` for every row of
the table. -/
theorem confirm_matches_preserves_invariant (ms : List ParcelMatch) :
    ∀ (db db' : List Parcel) (saved : List ParcelMatch),
      (∀ m ∈ ms, 0 < m.matched_quantity) →
      (∀ p ∈ db, parcelInv p) →
      confirm_matches db ms = .ok (db', saved) →
      ∀ p ∈ db', parcelInv p := by
  induction ms with
  | nil =>
    intro db db' saved _ hinv h
    simp only [confirm_matches, confirmLoop, Except.ok.injEq, Prod.mk.injEq] at h
    rw [← h.1]
    exact hinv
  | cons m ms ih =>
    intro db db' saved hpos hinv h
    simp only [confirm_matches, confirmLoop] at h
    split at h
    · exact absurd h (by simp)
    next parcel hg =>
      split at h
      · exact absurd h (by simp)
      next hcmp =>
        split at h
        · exact absurd h (by simp)
        next db2 saved2 hrec =>
          simp only [Except.ok.injEq, Prod.mk.injEq] at h
          have hq : m.matched_quantity ≤ parcel.remaining_quantity := not_lt.1 hcmp
          have hqpos : 0 < m.matched_quantity := hpos m (by simp)
          have hparcel : parcelInv parcel := hinv parcel (mem_of_getParcel_eq_some hg)
          have hinv' : ∀ p ∈ updateParcel db (decrementParcel parcel m.matched_quantity), parcelInv p := by
            intro p hp
            rcases mem_updateParcel hp with hmem | rfl
            · exact hinv p hmem
            · obtain ⟨h0, h1, h2⟩ := hparcel
              refine ⟨?_, ?_, ?_⟩
              · simp only [decrementParcel]
                linarith
              · simp only [decrementParcel]
                linarith
              · simp only [decrementParcel]
                by_cases hr : parcel.remaining_quantity - m.matched_quantity = 0
                · simp [hr]
                · have hflag : parcel.is_fully_matched = false := by
                    rcases Bool.eq_false_or_eq_true parcel.is_fully_matched with ht | hf
                    · exact absurd (h2.1 ht) (by intro h0'; rw [h0'] at hq; linarith)
                    · exact hf
                  simp [hr, hflag]
          have := ih _ _ _ (fun m' hm' => hpos m' (by simp [hm'])) hinv' hrec
          rw [← h.1]
          exact this

theorem autoLoop_matched_sum (sell : Transaction) :
    ∀ (ps : List Parcel) (r : ℚ),
      (((autoLoop sell ps r).1).map (·.matched_quantity)).sum =
        r - (autoLoop sell ps r).2 := by
  intro ps
  induction ps with
  | nil => intro r; simp [autoLoop]
  | cons p ps ih =>
    intro r
    by_cases hr : r ≤ 0
    · simp [autoLoop, hr]
    · simp only [autoLoop, if_neg hr, List.map_cons, List.sum_cons]
      have hb : (_build_match p sell (min p.remaining_quantity r)).matched_quantity =
          min p.remaining_quantity r := rfl
      rw [hb, ih]
      ring

/-- A fully intact parcel (remaining = original = 10), satisfying the
invariant. -/
def intactParcel : Parcel :=
  { id := 3
    security_id := 1
    acquisition_date := 0
    original_quantity := 10
    remaining_quantity := 10
    cost_per_unit_aud := 10
    total_cost_base_aud := 100
    is_fully_matched := false }

/-- A "match" with a negative matched quantity.  The commit engine's only
check is `matched_quantity > remaining_quantity`, which a negative
quantity passes. -/
def negativeMatch : ParcelMatch :=
  { parcelId := 3
    matched_quantity := -1
    cost_base_aud := 0
    proceeds_aud := 0
    capital_gain_loss := 0
    holding_period_days := 0
    cgt_discount_eligible := false
    discount_amount := 0
    net_capital_gain := 0 }

/-- Counterexample for C7 as stated: a successful commit of a (malformed,
negative-quantity) allocation increases a parcel's remaining quantity
above its original quantity, breaking the invariant. -/
theorem confirm_matches_invariant_counterexample :
    (∀ p ∈ [intactParcel], parcelInv p) ∧
    ∃ db' saved, confirm_matches [intactParcel] [negativeMatch] = .ok (db', saved) ∧
      ¬ (∀ p ∈ db', parcelInv p) := by
  constructor
  · intro p hp
    rcases List.mem_singleton.1 hp with rfl
    refine ⟨by norm_num [intactParcel], by norm_num [intactParcel], ?_⟩
    simp [intactParcel, parcelInv]
  · refine ⟨[{ intactParcel with remaining_quantity := 11 }], [negativeMatch], ?_, ?_⟩
    · simp only [confirm_matches, confirmLoop, getParcel, List.find?, updateParcel,
        decrementParcel, intactParcel, negativeMatch]
      norm_num
    · intro hall
      have := hall { intactParcel with remaining_quantity := 11 } (by simp)
      rcases this with ⟨_, h1, _⟩
      simp only [intactParcel] at h1
      norm_num at h1

/-- Witness for the amended C7: committing a positive 4-unit allocation
against the intact 10-unit parcel leaves every row satisfying the parcel
invariant. -/
theorem confirm_matches_preserves_invariant_witness :
    (∀ m ∈ [{ negativeMatch with matched_quantity := (4 : ℚ) }], 0 < m.matched_quantity) ∧
    (∀ p ∈ [intactParcel], parcelInv p) ∧
    (∀ p ∈ [{ intactParcel with remaining_quantity := (6 : ℚ) }], parcelInv p) :=
  ⟨by decide,
    fun p hp => by
      rcases List.mem_singleton.1 hp with rfl
      exact ⟨by norm_num [intactParcel], by norm_num [intactParcel],
        by simp [intactParcel, parcelInv]⟩,
    confirm_matches_preserves_invariant
      [{ negativeMatch with matched_quantity := (4 : ℚ) }]
      [intactParcel] [{ intactParcel with remaining_quantity := (6 : ℚ) }]
      [{ negativeMatch with matched_quantity := (4 : ℚ) }]
      (by decide)
      (fun p hp => by
        rcases List.mem_singleton.1 hp with rfl
        exact ⟨by norm_num [intactParcel], by norm_num [intactParcel],
          by simp [intactParcel, parcelInv]⟩)
      (by
        simp only [confirm_matches, confirmLoop, getParcel, List.find?, updateParcel,
          decrementParcel, intactParcel, negativeMatch]
        norm_num)⟩

theorem autoLoop_snd_nonneg (sell : Transaction) :
    ∀ (ps : List Parcel) (r : ℚ), 0 ≤ r → 0 ≤ (autoLoop sell ps r).2 := by
  intro ps
  induction ps with
  | nil => intro r hr; simpa [autoLoop] using hr
  | cons p ps ih =>
    intro r hr
    by_cases h0 : r ≤ 0
    · simpa [autoLoop, h0] using hr
    · simp only [autoLoop, if_neg h0]
      exact ih _ (by simp [sub_nonneg, min_le_right])

theorem autoLoop_snd_eq (sell : Transaction) :
    ∀ (ps : List Parcel) (r : ℚ), 0 ≤ r →
      (∀ p ∈ ps, 0 ≤ p.remaining_quantity) →
      (autoLoop sell ps r).2 = max 0 (r - (ps.map (·.remaining_quantity)).sum) := by
  intro ps
  induction ps with
  | nil =>
    intro r hr _
    simp [autoLoop, max_eq_right hr]
  | cons p ps ih =>
    intro r hr hpos
    have hp0 : 0 ≤ p.remaining_quantity := hpos p (by simp)
    have htail : ∀ q ∈ ps, 0 ≤ q.remaining_quantity := fun q hq => hpos q (by simp [hq])
    have hsum : 0 ≤ (ps.map (·.remaining_quantity)).sum :=
      List.sum_nonneg (by
        intro x hx
        rcases List.mem_map.1 hx with ⟨q, hq, rfl⟩
        exact htail q hq)
    by_cases h0 : r ≤ 0
    · have hr0 : r = 0 := le_antisymm h0 hr
      subst hr0
      simp only [autoLoop, le_refl, if_true, List.map_cons, List.sum_cons]
      rw [max_eq_left]
      linarith
    · simp only [autoLoop, if_neg h0, List.map_cons, List.sum_cons]
      rcases le_total p.remaining_quantity r with hle | hle
      · rw [min_eq_left hle, ih _ (by linarith) htail]
        congr 1
        ring
      · rw [min_eq_right hle, ih _ (by linarith) htail]
        rw [sub_self, max_eq_left (by linarith), max_eq_left (by linarith)]

theorem mem_available_parcels {db : List Parcel} {sid : Nat} {fifo : Bool}
    {p : Parcel} (hp : p ∈ available_parcels db sid fifo) :
    0 ≤ p.remaining_quantity := by
  unfold available_parcels at hp
  have h1 := (List.mem_insertionSort (acqLe fifo)).1 hp
  have h2 := List.of_mem_filter h1
  simp only [Bool.and_eq_true, decide_eq_true_eq] at h2
  exact le_of_lt h2.2

/-- C5: for a DISPOSE allocated with the earliest-first (`fifo = true`) or
latest-first (`fifo = false`) strategy, the engine considers exactly the
lots of the disposal's security with remaining quantity > 0, ordered by
ascending (resp. descending) acquisition date; on success the proposals
are the greedy `min(lot.remaining, stillNeeded)` walk of that ordered
list and their matched quantities sum exactly to the disposal quantity;
the call fails (with the shortfall error) exactly when the total
available remaining quantity is below the disposal quantity — never
returning a partial result. -/
theorem match_auto_spec (db : List Parcel) (sell : Transaction) (fifo : Bool)
    (hq : 0 ≤ sell.quantity) :
    List.Perm (available_parcels db sell.security_id fifo)
      (db.filter fun p =>
        p.security_id == sell.security_id && decide (0 < p.remaining_quantity)) ∧
    List.Sorted (acqLe fifo) (available_parcels db sell.security_id fifo) ∧
    (∀ ms, _match_auto sell sell.quantity fifo db = .ok ms →
      ms = (autoLoop sell (available_parcels db sell.security_id fifo) sell.quantity).1 ∧
      (ms.map (·.matched_quantity)).sum = sell.quantity) ∧
    ((∃ e, _match_auto sell sell.quantity fifo db = .error e) ↔
      ((available_parcels db sell.security_id fifo).map (·.remaining_quantity)).sum <
        sell.quantity) := by
  have hperm := List.perm_insertionSort (acqLe fifo)
    (db.filter fun p =>
      p.security_id == sell.security_id && decide (0 < p.remaining_quantity))
  have hpos : ∀ p ∈ available_parcels db sell.security_id fifo,
      0 ≤ p.remaining_quantity := fun p hp => mem_available_parcels hp
  have hsnd := autoLoop_snd_eq sell
    (available_parcels db sell.security_id fifo) sell.quantity hq hpos
  refine ⟨hperm, List.sorted_insertionSort (acqLe fifo) _, ?_, ?_⟩
  · intro ms hok
    simp only [_match_auto] at hok
    split at hok
    · exact absurd hok (by simp)
    next hno =>
      simp only [Except.ok.injEq] at hok
      refine ⟨hok.symm, ?_⟩
      have h0 : (autoLoop sell (available_parcels db sell.security_id fifo)
          sell.quantity).2 = 0 :=
        le_antisymm (not_lt.1 hno) (autoLoop_snd_nonneg sell _ _ hq)
      rw [← hok]
      rw [autoLoop_matched_sum, h0, sub_zero]
  · constructor
    · rintro ⟨e, he⟩
      simp only [_match_auto] at he
      split at he
      next hpos2 =>
        rw [hsnd] at hpos2
        rcases max_cases (0 : ℚ)
          (sell.quantity -
            ((available_parcels db sell.security_id fifo).map
              (·.remaining_quantity)).sum) with h | h
        · rw [h.1] at hpos2; exact absurd hpos2 (lt_irrefl 0)
        · rw [h.1] at hpos2; linarith
      · exact absurd he (by simp)
    · intro hlt
      refine ⟨"Insufficient parcels", ?_⟩
      simp only [_match_auto]
      rw [if_pos]
      rw [hsnd]
      rcases max_cases (0 : ℚ)
        (sell.quantity -
          ((available_parcels db sell.security_id fifo).map
            (·.remaining_quantity)).sum) with h | h
      · linarith [h.2]
      · linarith

/-- A parcel of security 1 with 3 units remaining, acquired on day 5. -/
def autoParcelW : Parcel :=
  { id := 11
    security_id := 1
    acquisition_date := 5
    original_quantity := 3
    remaining_quantity := 3
    cost_per_unit_aud := 10
    total_cost_base_aud := 30
    is_fully_matched := false }

/-- A SELL of 5 units of security 1 (more than the 3 available). -/
def autoSellW : Transaction :=
  { security_id := 1
    trade_date := 400
    transaction_type := "SELL"
    quantity := 5
    unit_price := 20
    brokerage := 0
    total_value := 100
    exchange_rate := 1 }

/-- Witness for C5: selling 5 units when only one 3-unit parcel is
available fails with the shortfall error. -/
theorem match_auto_spec_witness :
    0 ≤ autoSellW.quantity ∧
    (∃ e, _match_auto autoSellW autoSellW.quantity true [autoParcelW] = .error e) :=
  ⟨by decide,
    ((match_auto_spec [autoParcelW] autoSellW true (by decide)).2.2.2).2 (by
      simp only [available_parcels, autoParcelW, autoSellW, List.filter,
        List.insertionSort, List.orderedInsert]
      norm_num)⟩

theorem manualLoop_ok_val (sell : Transaction) :
    ∀ (pairs : List (Parcel × ℚ)) (ms : List ParcelMatch) (total : ℚ),
      manualLoop sell pairs = .ok (ms, total) →
      ms = ((pairs.filter fun pq => decide (0 < pq.2)).map
          fun pq => _build_match pq.1 sell pq.2) ∧
      total = ((pairs.filter fun pq => decide (0 < pq.2)).map (·.2)).sum := by
  intro pairs
  induction pairs with
  | nil =>
    intro ms total h
    simp only [manualLoop, Except.ok.injEq, Prod.mk.injEq] at h
    simp [← h.1, ← h.2]
  | cons pq rest ih =>
    intro ms total h
    obtain ⟨p, q⟩ := pq
    simp only [manualLoop] at h
    by_cases hq : q ≤ 0
    · rw [if_pos hq] at h
      have hfilt : decide (0 < q) = false := by simp [not_lt.2 hq]
      obtain ⟨h1, h2⟩ := ih _ _ h
      constructor
      · rw [h1]; simp [List.filter, hfilt]
      · rw [h2]; simp [List.filter, hfilt]
    · rw [if_neg hq] at h
      split at h
      · exact absurd h (by simp)
      split at h
      · exact absurd h (by simp)
      split at h
      · exact absurd h (by simp)
      next ms2 total2 hrec =>
        simp only [Except.ok.injEq, Prod.mk.injEq] at h
        obtain ⟨h1, h2⟩ := ih _ _ hrec
        have hfilt : decide (0 < q) = true := by simp [lt_of_not_le hq]
        constructor
        · rw [← h.1, h1]; simp [List.filter, hfilt]
        · rw [← h.2, h2]; simp only [List.filter, hfilt, List.map_cons, List.sum_cons]
          ring

theorem manualLoop_isOk_iff (sell : Transaction) :
    ∀ pairs : List (Parcel × ℚ),
      (∃ r, manualLoop sell pairs = .ok r) ↔
        ∀ pq ∈ pairs, 0 < pq.2 →
          pq.2 ≤ pq.1.remaining_quantity ∧ pq.1.security_id = sell.security_id := by
  intro pairs
  induction pairs with
  | nil =>
    constructor
    · intro _ pq hpq _
      exact absurd hpq (List.not_mem_nil pq)
    · intro _
      exact ⟨([], 0), rfl⟩
  | cons pq0 rest ih =>
    obtain ⟨p, q⟩ := pq0
    constructor
    · rintro ⟨r, hr⟩ pq hpq hqpos
      simp only [manualLoop] at hr
      by_cases hq : q ≤ 0
      · rw [if_pos hq] at hr
        rcases List.mem_cons.1 hpq with rfl | hmem
        · exact absurd hqpos (not_lt.2 hq)
        · exact (ih.1 ⟨r, hr⟩) pq hmem hqpos
      · rw [if_neg hq] at hr
        split at hr
        · exact absurd hr (by simp)
        next hrem =>
          split at hr
          · exact absurd hr (by simp)
          next hsec =>
            rcases List.mem_cons.1 hpq with rfl | hmem
            · exact ⟨not_lt.1 hrem, not_ne_iff.1 hsec⟩
            · split at hr
              · exact absurd hr (by simp)
              next ms2 t2 hrec =>
                exact (ih.1 ⟨(ms2, t2), hrec⟩) pq hmem hqpos
    · intro hall
      by_cases hq : q ≤ 0
      · rcases ih.2 (fun pq hm hp => hall pq (List.mem_cons_of_mem _ hm) hp) with ⟨r, hr⟩
        refine ⟨r, ?_⟩
        simp only [manualLoop, if_pos hq]
        exact hr
      · have hhead := hall (p, q) (List.mem_cons_self _ _) (lt_of_not_le hq)
        rcases ih.2 (fun pq hm hp => hall pq (List.mem_cons_of_mem _ hm) hp) with
          ⟨⟨ms2, t2⟩, hr⟩
        refine ⟨(_build_match p sell q :: ms2, t2 + q), ?_⟩
        simp only [manualLoop, if_neg hq]
        rw [if_neg (not_lt.2 hhead.1), if_neg (not_ne_iff.2 hhead.2), hr]

/-- C6 (amended): a manual allocation call succeeds exactly when the
inputs are non-empty and of equal length, every supplied pair with a
POSITIVE quantity satisfies quantity ≤ that lot's remaining quantity and
belongs to the disposal's security, and the positive quantities sum to
the disposal quantity; on success it returns one proposed allocation per
positive-quantity pair, in order.  (Pairs with a non-positive quantity
are skipped without validation, which is what forces the amendment.) -/
theorem match_manual_spec (sell : Transaction) (sell_qty : ℚ)
    (ps : List Parcel) (qs : List ℚ) :
    (∀ ms, _match_manual sell sell_qty ps qs = .ok ms →
      ms = (((ps.zip qs).filter fun pq => decide (0 < pq.2)).map
          fun pq => _build_match pq.1 sell pq.2) ∧
      (∀ pq ∈ ps.zip qs, 0 < pq.2 →
        pq.2 ≤ pq.1.remaining_quantity ∧ pq.1.security_id = sell.security_id) ∧
      (((ps.zip qs).filter fun pq => decide (0 < pq.2)).map (·.2)).sum = sell_qty) ∧
    (ps.isEmpty = false → qs.isEmpty = false → ps.length = qs.length →
      (∀ pq ∈ ps.zip qs, 0 < pq.2 →
        pq.2 ≤ pq.1.remaining_quantity ∧ pq.1.security_id = sell.security_id) →
      (((ps.zip qs).filter fun pq => decide (0 < pq.2)).map (·.2)).sum = sell_qty →
      ∃ ms, _match_manual sell sell_qty ps qs = .ok ms) := by
  constructor
  · intro ms h
    simp only [_match_manual] at h
    split at h
    · exact absurd h (by simp)
    next hne =>
      split at h
      · exact absurd h (by simp)
      next hlen =>
        split at h
        · exact absurd h (by simp)
        next ms2 total hrec =>
          split at h
          · exact absurd h (by simp)
          next htot =>
            simp only [Except.ok.injEq] at h
            obtain ⟨h1, h2⟩ := manualLoop_ok_val sell _ _ _ hrec
            refine ⟨by rw [← h, h1], ?_, ?_⟩
            · exact (manualLoop_isOk_iff sell _).1 ⟨(ms2, total), hrec⟩
            · rw [← h2]
              exact not_ne_iff.1 htot
  · intro h1 h2 h3 hall hsum
    rcases (manualLoop_isOk_iff sell (ps.zip qs)).2 hall with ⟨⟨ms2, total⟩, hr⟩
    obtain ⟨hv1, hv2⟩ := manualLoop_ok_val sell _ _ _ hr
    refine ⟨ms2, ?_⟩
    simp only [_match_manual]
    rw [if_neg (by simp [h1, h2])]
    rw [if_neg (not_ne_iff.2 h3)]
    simp only [hr]
    rw [if_neg (not_ne_iff.2 (hv2.trans hsum))]

/-- A SELL of 10 units of security 1, for the manual-matching claims. -/
def manualSell : Transaction :=
  { security_id := 1
    trade_date := 100
    transaction_type := "SELL"
    quantity := 10
    unit_price := 20
    brokerage := 0
    total_value := 200
    exchange_rate := 1 }

/-- A parcel that belongs to a DIFFERENT security (2). -/
def otherSecurityParcel : Parcel :=
  { id := 21
    security_id := 2
    acquisition_date := 0
    original_quantity := 5
    remaining_quantity := 5
    cost_per_unit_aud := 1
    total_cost_base_aud := 5
    is_fully_matched := false }

/-- A parcel of the disposal's security (1) with 20 units remaining. -/
def mainSecurityParcel : Parcel :=
  { id := 22
    security_id := 1
    acquisition_date := 0
    original_quantity := 20
    remaining_quantity := 20
    cost_per_unit_aud := 10
    total_cost_base_aud := 200
    is_fully_matched := false }

/-- Counterexample for C6 as stated: a manual call supplying a
zero-quantity pair whose lot belongs to a DIFFERENT security succeeds
anyway (the pair is skipped without any validation), and returns one
allocation for two supplied pairs — so success does not imply that every
supplied lot belongs to the disposal's security, nor one allocation per
pair. -/
theorem match_manual_counterexample :
    _match_manual manualSell 10 [otherSecurityParcel, mainSecurityParcel]
      [0, 10] = .ok [_build_match mainSecurityParcel manualSell 10] ∧
    otherSecurityParcel.security_id ≠ manualSell.security_id ∧
    ¬ ([_build_match mainSecurityParcel manualSell 10].length =
        [otherSecurityParcel, mainSecurityParcel].length) := by
  refine ⟨?_, by decide, by decide⟩
  simp only [_match_manual, manualLoop, manualSell, otherSecurityParcel,
    mainSecurityParcel, List.zip, List.zipWith, List.isEmpty, List.length]
  norm_num

/-- Witness for the amended C6: the valid single-pair input (20-unit lot
of the right security, quantity 10 = the sell quantity) satisfies every
hypothesis and the call succeeds. -/
theorem match_manual_spec_witness :
    ([mainSecurityParcel].isEmpty = false ∧ [(10 : ℚ)].isEmpty = false ∧
      [mainSecurityParcel].length = [(10 : ℚ)].length ∧
      (∀ pq ∈ [mainSecurityParcel].zip [(10 : ℚ)], 0 < pq.2 →
        pq.2 ≤ pq.1.remaining_quantity ∧
          pq.1.security_id = manualSell.security_id) ∧
      ((([mainSecurityParcel].zip [(10 : ℚ)]).filter
          fun pq => decide (0 < pq.2)).map (·.2)).sum = 10) ∧
    ∃ ms, _match_manual manualSell 10 [mainSecurityParcel] [(10 : ℚ)] = .ok ms :=
  ⟨⟨rfl, rfl, rfl, by decide, by norm_num [List.zip, List.zipWith]⟩,
    (match_manual_spec manualSell 10 [mainSecurityParcel] [(10 : ℚ)]).2
      rfl rfl rfl (by decide) (by norm_num [List.zip, List.zipWith])⟩

/-- The `order_by("-cost_per_unit_aud")` key of the forecast's "optimal"
strategy: descending cost per unit. -/
def costGe (a b : Parcel) : Prop :=
  b.cost_per_unit_aud ≤ a.cost_per_unit_aud

instance : DecidableRel costGe := fun a b => by
  unfold costGe
  infer_instance

instance : IsTotal Parcel costGe where
  total := fun a b => (le_total b.cost_per_unit_aud a.cost_per_unit_aud).imp id id

instance : IsTrans Parcel costGe where
  trans := fun _ _ _ h1 h2 => le_trans h2 h1

/-- One element of `parcels_consumed` in `_simulate_strategy`
(`tracker/services/forecasting.py:72-80`): the per-parcel breakdown dict,
with the spread `calculate_cgt` fields kept as one `CgtResult`. -/
structure ConsumedEntry where
  parcel_id : Nat
  acquisition_date : Int
  matched_quantity : ℚ
  cost_per_unit_aud : ℚ
  cgt : CgtResult
  deriving DecidableEq, Repr

/-- The result dict of `_simulate_strategy`. -/
structure StrategyResult where
  parcels_consumed : List ConsumedEntry
  total_cost_base : ℚ
  total_proceeds : ℚ
  total_gain_loss : ℚ
  total_discount : ℚ
  total_net_gain : ℚ
  quantity_matched : ℚ
  quantity_shortfall : ℚ
  deriving DecidableEq, Repr

/-- `_FakeSellTransaction` (`tracker/services/forecasting.py:39-55`): a
stand-in sell with FX rate fixed at 1.  The Python object carries only
the fields `calculate_cgt` reads (security, trade date, unit price,
exchange rate, type); the remaining `Transaction` fields, which it does
not have and nothing reads, are set to 0 here. -/
def fakeSellTransaction (security_id : Nat) (trade_date : Int)
    (unit_price : ℚ) : Transaction :=
  { security_id := security_id
    trade_date := trade_date
    transaction_type := "SELL"
    quantity := 0
    unit_price := unit_price
    brokerage := 0
    total_value := 0
    exchange_rate := 1 }

/-- The consuming loop of `_simulate_strategy`
(`tracker/services/forecasting.py:65-87`): identical greedy walk to
`_match_auto`'s loop, producing per-parcel breakdown entries. -/
def simLoop (fake : Transaction) : List Parcel → ℚ → List ConsumedEntry × ℚ
  | [], remaining => ([], remaining)
  | parcel :: ps, remaining =>
    if remaining ≤ 0 then ([], remaining)
    else
      let qty := min parcel.remaining_quantity remaining
      let cgt := calculate_cgt parcel fake qty
      let rest := simLoop fake ps (remaining - qty)
      ({ parcel_id := parcel.id
         acquisition_date := parcel.acquisition_date
         matched_quantity := qty
         cost_per_unit_aud := parcel.cost_per_unit_aud
         cgt := cgt } :: rest.1, rest.2)

/-- `tracker/services/forecasting.py`, `_simulate_strategy`.  The source
accumulates the five totals inside the loop starting from 0; summing the
per-parcel entries after the loop performs the same additions. -/
def _simulate_strategy (parcels : List Parcel) (security_id : Nat)
    (quantity sell_price : ℚ) (sell_date : Int) : StrategyResult :=
  let fake := fakeSellTransaction security_id sell_date sell_price
  let r := simLoop fake parcels quantity
  { parcels_consumed := r.1
    total_cost_base := (r.1.map (·.cgt.cost_base_aud)).sum
    total_proceeds := (r.1.map (·.cgt.proceeds_aud)).sum
    total_gain_loss := (r.1.map (·.cgt.capital_gain_loss)).sum
    total_discount := (r.1.map (·.cgt.discount_amount)).sum
    total_net_gain := (r.1.map (·.cgt.net_capital_gain)).sum
    quantity_matched := quantity - r.2
    quantity_shortfall := r.2 }

/-- The result dict of `forecast`: one `StrategyResult` per strategy. -/
structure ForecastReport where
  quantity : ℚ
  sell_price : ℚ
  sell_date : Int
  fifo : StrategyResult
  lifo : StrategyResult
  optimal : StrategyResult
  deriving DecidableEq, Repr

/-- `tracker/services/forecasting.py`, `forecast`: validate inputs and
availability, then simulate the three strategies over the same candidate
parcels in their three orderings.  Pure — the source performs no
database writes. -/
def forecast (db : List Parcel) (security_id : Nat)
    (quantity sell_price : ℚ) (sell_date : Int) :
    Except String ForecastReport :=
  if quantity ≤ 0 then .error "Quantity must be positive."
  else if sell_price ≤ 0 then .error "Sell price must be positive."
  else
    let base_qs := db.filter fun p =>
      p.security_id == security_id && decide (0 < p.remaining_quantity)
    if base_qs.isEmpty then .error "No available parcels."
    else if (base_qs.map (·.remaining_quantity)).sum < quantity then
      .error "Insufficient parcels"
    else
      .ok { quantity := quantity
            sell_price := sell_price
            sell_date := sell_date
            fifo := _simulate_strategy (base_qs.insertionSort (acqLe true))
              security_id quantity sell_price sell_date
            lifo := _simulate_strategy (base_qs.insertionSort (acqLe false))
              security_id quantity sell_price sell_date
            optimal := _simulate_strategy (base_qs.insertionSort costGe)
              security_id quantity sell_price sell_date }

/-- C8: a forecast fails exactly when the requested quantity is
non-positive, the sell price is non-positive, no parcel of the security
has remaining quantity > 0, or the total available remaining quantity is
below the requested quantity.  (`forecast` is a pure function of the
parcel table — the source performs no writes, so no persisted state is
modified in either outcome.) -/
theorem forecast_error_iff (db : List Parcel) (sid : Nat) (q p : ℚ) (d : Int) :
    (∃ e, forecast db sid q p d = .error e) ↔
      (q ≤ 0 ∨ p ≤ 0 ∨
        (db.filter fun x =>
          x.security_id == sid && decide (0 < x.remaining_quantity)) = [] ∨
        ((db.filter fun x =>
          x.security_id == sid && decide (0 < x.remaining_quantity)).map
            (·.remaining_quantity)).sum < q) := by
  by_cases h1 : q ≤ 0
  · simp [forecast, h1]
  · by_cases h2 : p ≤ 0
    · simp [forecast, h1, h2]
    · by_cases h3 : (db.filter fun x =>
          x.security_id == sid && decide (0 < x.remaining_quantity)) = []
      · simp [forecast, h1, h2, h3]
      · by_cases h4 : ((db.filter fun x =>
            x.security_id == sid && decide (0 < x.remaining_quantity)).map
              (·.remaining_quantity)).sum < q
        · simp [forecast, h1, h2, h3, h4, List.isEmpty_iff]
        · simp [forecast, h1, h2, h3, h4, List.isEmpty_iff]

theorem simLoop_snd_eq_autoLoop (fake : Transaction) :
    ∀ (ps : List Parcel) (r : ℚ),
      (simLoop fake ps r).2 = (autoLoop fake ps r).2 := by
  intro ps
  induction ps with
  | nil => intro r; rfl
  | cons parcel ps ih =>
    intro r
    by_cases h0 : r ≤ 0
    · simp [simLoop, autoLoop, h0]
    · simp only [simLoop, autoLoop, if_neg h0]
      exact ih _

theorem simLoop_snd_zero (fake : Transaction) (L : List Parcel) (q : ℚ)
    (hq : 0 ≤ q) (hpos : ∀ pp ∈ L, 0 ≤ pp.remaining_quantity)
    (hsum : q ≤ (L.map (·.remaining_quantity)).sum) :
    (simLoop fake L q).2 = 0 := by
  rw [simLoop_snd_eq_autoLoop, autoLoop_snd_eq fake L q hq hpos]
  rw [max_eq_left (by linarith)]

/-- C10: whenever `forecast` succeeds, each of the three strategy results
reports `quantity_matched` equal to the requested quantity and zero
`quantity_shortfall`: the greedy per-lot walk fully satisfies the request
for every ordering of the same candidate lots. -/
theorem forecast_full_match (db : List Parcel) (sid : Nat) (q p : ℚ)
    (d : Int) (rep : ForecastReport)
    (h : forecast db sid q p d = .ok rep) :
    rep.fifo.quantity_matched = q ∧ rep.fifo.quantity_shortfall = 0 ∧
    rep.lifo.quantity_matched = q ∧ rep.lifo.quantity_shortfall = 0 ∧
    rep.optimal.quantity_matched = q ∧ rep.optimal.quantity_shortfall = 0 := by
  simp only [forecast] at h
  split at h
  · exact absurd h (by simp)
  next h1 =>
    split at h
    · exact absurd h (by simp)
    next h2 =>
      split at h
      · exact absurd h (by simp)
      next h3 =>
        split at h
        · exact absurd h (by simp)
        next h4 =>
          simp only [Except.ok.injEq] at h
          have hq : 0 ≤ q := le_of_lt (not_le.1 h1)
          have hsum : q ≤ ((db.filter fun pp =>
              pp.security_id == sid && decide (0 < pp.remaining_quantity)).map
                (·.remaining_quantity)).sum := not_lt.1 h4
          have hposF : ∀ pp ∈ (db.filter fun pp =>
              pp.security_id == sid && decide (0 < pp.remaining_quantity)),
              0 ≤ pp.remaining_quantity := by
            intro pp hpp
            have hx := List.of_mem_filter hpp
            simp only [Bool.and_eq_true, decide_eq_true_eq] at hx
            exact le_of_lt hx.2
          have key : ∀ L : List Parcel,
              L.Perm (db.filter fun pp =>
                pp.security_id == sid && decide (0 < pp.remaining_quantity)) →
              (simLoop (fakeSellTransaction sid d p) L q).2 = 0 := by
            intro L hL
            refine simLoop_snd_zero _ _ _ hq (fun pp hpp => hposF pp (hL.subset hpp)) ?_
            rw [(hL.map (·.remaining_quantity)).sum_eq]
            exact hsum
          subst h
          refine ⟨?_, ?_, ?_, ?_, ?_, ?_⟩ <;>
            simp only [_simulate_strategy] <;>
            rw [key _ (List.perm_insertionSort _ _)] <;>
            ring

/-- A parcel of security 1 with 5 units remaining, for the forecast
witness. -/
def forecastParcelW : Parcel :=
  { id := 31
    security_id := 1
    acquisition_date := 10
    original_quantity := 5
    remaining_quantity := 5
    cost_per_unit_aud := 2
    total_cost_base_aud := 10
    is_fully_matched := false }

/-- Witness for C10: forecasting a 3-unit sell against a 5-unit parcel
succeeds, and every strategy reports 3 matched and zero shortfall. -/
theorem forecast_full_match_witness :
    ∃ rep, forecast [forecastParcelW] 1 3 10 50 = .ok rep ∧
      (rep.fifo.quantity_matched = 3 ∧ rep.fifo.quantity_shortfall = 0 ∧
        rep.lifo.quantity_matched = 3 ∧ rep.lifo.quantity_shortfall = 0 ∧
        rep.optimal.quantity_matched = 3 ∧ rep.optimal.quantity_shortfall = 0) := by
  cases hok : forecast [forecastParcelW] 1 3 10 50 with
  | error e =>
    exfalso
    simp only [forecast, forecastParcelW, List.filter] at hok
    norm_num at hok
    exact Except.noConfusion hok
  | ok rep =>
    exact ⟨rep, rfl, forecast_full_match _ _ _ _ _ _ hok⟩

theorem calculate_cgt_fake (sell : Transaction) (hfx : sell.exchange_rate = 1)
    (p : Parcel) (q : ℚ) :
    calculate_cgt p
      (fakeSellTransaction sell.security_id sell.trade_date sell.unit_price) q =
      calculate_cgt p sell q := by
  simp [calculate_cgt, fakeSellTransaction, hfx]

theorem build_match_cgt (p : Parcel) (sell : Transaction) (q : ℚ) :
    (_build_match p sell q).cgt = calculate_cgt p sell q := rfl

theorem sim_auto_entries (sell : Transaction) (hfx : sell.exchange_rate = 1) :
    ∀ (ps : List Parcel) (r : ℚ),
      ((simLoop (fakeSellTransaction sell.security_id sell.trade_date
          sell.unit_price) ps r).1).map
        (fun e => (e.parcel_id, e.matched_quantity, e.cgt)) =
      ((autoLoop sell ps r).1).map
        (fun m => (m.parcelId, m.matched_quantity, m.cgt)) := by
  intro ps
  induction ps with
  | nil => intro r; rfl
  | cons p ps ih =>
    intro r
    by_cases h0 : r ≤ 0
    · simp [simLoop, autoLoop, h0]
    · simp only [simLoop, autoLoop, if_neg h0, List.map_cons]
      rw [ih]
      congr 1
      simp only [build_match_cgt]
      rw [calculate_cgt_fake sell hfx]
      rfl

theorem getParcel_updateParcel_ne (db : List Parcel) (p : Parcel) (pid : Nat)
    (hne : pid ≠ p.id) :
    getParcel (updateParcel db p) pid = getParcel db pid := by
  induction db with
  | nil => rfl
  | cons q qs ih =>
    by_cases hq : q.id = p.id
    · have h2 : (p.id == pid) = false := by
        simp only [beq_eq_false_iff_ne, ne_eq]
        exact fun h => hne h.symm
      have h3 : (q.id == pid) = false := by
        simp only [beq_eq_false_iff_ne, ne_eq, hq]
        exact fun h => hne h.symm
      have hupd : updateParcel (q :: qs) p = p :: updateParcel qs p := by
        simp [updateParcel, hq]
      rw [hupd]
      simp only [getParcel, List.find?, h2, h3]
      exact ih
    · have hupd : updateParcel (q :: qs) p = q :: updateParcel qs p := by
        simp [updateParcel, hq]
      rw [hupd]
      by_cases hmatch : q.id = pid
      · simp only [getParcel, List.find?, (by simp [hmatch] : (q.id == pid) = true)]
      · simp only [getParcel, List.find?, (by simp [hmatch] : (q.id == pid) = false)]
        exact ih

theorem getParcel_of_mem_nodup {db : List Parcel} {p : Parcel}
    (hnodup : (db.map (·.id)).Nodup) (hmem : p ∈ db) :
    getParcel db p.id = some p := by
  induction db with
  | nil => exact absurd hmem (List.not_mem_nil p)
  | cons q qs ih =>
    simp only [List.map_cons, List.nodup_cons] at hnodup
    rcases List.mem_cons.1 hmem with rfl | hmem'
    · simp [getParcel, List.find?]
    · have hne : q.id ≠ p.id := by
        intro heq
        exact hnodup.1 (heq ▸ List.mem_map.2 ⟨p, hmem', rfl⟩)
      simp only [getParcel, List.find?]
      have h1 : (q.id == p.id) = false := by simp [hne]
      rw [h1]
      exact ih hnodup.2 hmem'

theorem autoLoop_parcelIds_sublist (sell : Transaction) :
    ∀ (ps : List Parcel) (r : ℚ),
      List.Sublist ((autoLoop sell ps r).1.map (·.parcelId)) (ps.map (·.id)) := by
  intro ps
  induction ps with
  | nil => intro r; simp [autoLoop]
  | cons p ps ih =>
    intro r
    by_cases h0 : r ≤ 0
    · simp [autoLoop, h0]
    · simp only [autoLoop, if_neg h0, List.map_cons]
      exact List.Sublist.cons₂ _ (ih _)

theorem autoLoop_mem_ok (sell : Transaction) :
    ∀ (ps : List Parcel) (r : ℚ) (m : ParcelMatch),
      m ∈ (autoLoop sell ps r).1 →
      ∃ p ∈ ps, m.parcelId = p.id ∧
        m.matched_quantity ≤ p.remaining_quantity := by
  intro ps
  induction ps with
  | nil => intro r m hm; simp [autoLoop] at hm
  | cons p ps ih =>
    intro r m hm
    by_cases h0 : r ≤ 0
    · simp [autoLoop, h0] at hm
    · simp only [autoLoop, if_neg h0, List.mem_cons] at hm
      rcases hm with rfl | hm'
      · exact ⟨p, by simp, rfl, min_le_left _ _⟩
      · rcases ih _ m hm' with ⟨p', hp', h1, h2⟩
        exact ⟨p', by simp [hp'], h1, h2⟩

theorem confirm_ok_of_distinct :
    ∀ (ms : List ParcelMatch) (db : List Parcel),
      (ms.map (·.parcelId)).Nodup →
      (∀ m ∈ ms, ∃ p, getParcel db m.parcelId = some p ∧
        m.matched_quantity ≤ p.remaining_quantity) →
      ∃ r, confirmLoop db ms = .ok r := by
  intro ms
  induction ms with
  | nil => intro db _ _; exact ⟨(db, []), rfl⟩
  | cons m ms ih =>
    intro db hnodup hall
    simp only [List.map_cons, List.nodup_cons] at hnodup
    rcases hall m (by simp) with ⟨p, hg, hle⟩
    have hpid : p.id = m.parcelId := getParcel_eq_some_id hg
    have htail : ∀ m' ∈ ms, ∃ p', getParcel
        (updateParcel db (decrementParcel p m.matched_quantity)) m'.parcelId =
          some p' ∧ m'.matched_quantity ≤ p'.remaining_quantity := by
      intro m' hm'
      rcases hall m' (by simp [hm']) with ⟨p', hg', hle'⟩
      have hne : m'.parcelId ≠ (decrementParcel p m.matched_quantity).id := by
        have : m'.parcelId ∈ ms.map (·.parcelId) :=
          List.mem_map.2 ⟨m', hm', rfl⟩
        intro heq
        apply hnodup.1
        have hid : (decrementParcel p m.matched_quantity).id = m.parcelId := hpid
        rw [← hid, ← heq]
        exact this
      rw [getParcel_updateParcel_ne db _ _ hne]
      exact ⟨p', hg', hle'⟩
    rcases ih _ (hnodup.2) htail with ⟨⟨db2, sv2⟩, hr⟩
    refine ⟨(db2, m :: sv2), ?_⟩
    simp only [confirmLoop, hg]
    rw [if_neg (not_lt.2 hle)]
    simp [hr]

/-- C2: for the same strategy (earliest-first `fifo = true` / latest-first
`fifo = false`), the same disposal parameters (security, quantity, unit
price, FX rate 1, trade date) and the same lot state, the forecast
simulation's per-lot breakdown (matched quantity and every CGT figure)
and its five totals are numerically identical to the allocations the
matching engine proposes, and committing those allocations succeeds and
persists them unchanged (the saved records are exactly the proposals).
Hypotheses: FX rate 1 (the forecast's fixed rate), nonnegative sell
quantity, distinct parcel primary keys, and sufficient availability
(so that neither side reports a shortfall). -/
theorem forecast_commit_equivalence (db : List Parcel) (sell : Transaction)
    (fifo : Bool) (hfx : sell.exchange_rate = 1) (hq : 0 ≤ sell.quantity)
    (hnodup : (db.map (·.id)).Nodup)
    (havail : sell.quantity ≤
      ((available_parcels db sell.security_id fifo).map
        (·.remaining_quantity)).sum) :
    ∃ ms, _match_auto sell sell.quantity fifo db = .ok ms ∧
      ((_simulate_strategy (available_parcels db sell.security_id fifo)
          sell.security_id sell.quantity sell.unit_price
          sell.trade_date).parcels_consumed).map
        (fun e => (e.parcel_id, e.matched_quantity, e.cgt)) =
        ms.map (fun m => (m.parcelId, m.matched_quantity, m.cgt)) ∧
      (_simulate_strategy (available_parcels db sell.security_id fifo)
        sell.security_id sell.quantity sell.unit_price
        sell.trade_date).total_cost_base = (ms.map (·.cost_base_aud)).sum ∧
      (_simulate_strategy (available_parcels db sell.security_id fifo)
        sell.security_id sell.quantity sell.unit_price
        sell.trade_date).total_proceeds = (ms.map (·.proceeds_aud)).sum ∧
      (_simulate_strategy (available_parcels db sell.security_id fifo)
        sell.security_id sell.quantity sell.unit_price
        sell.trade_date).total_gain_loss = (ms.map (·.capital_gain_loss)).sum ∧
      (_simulate_strategy (available_parcels db sell.security_id fifo)
        sell.security_id sell.quantity sell.unit_price
        sell.trade_date).total_discount = (ms.map (·.discount_amount)).sum ∧
      (_simulate_strategy (available_parcels db sell.security_id fifo)
        sell.security_id sell.quantity sell.unit_price
        sell.trade_date).total_net_gain = (ms.map (·.net_capital_gain)).sum ∧
      confirm_matches db ms = .ok (ms.foldl applyMatch db, ms) := by
  have hpos : ∀ pp ∈ available_parcels db sell.security_id fifo,
      0 ≤ pp.remaining_quantity := fun pp hp => mem_available_parcels hp
  have hsnd0 : (autoLoop sell (available_parcels db sell.security_id fifo)
      sell.quantity).2 = 0 := by
    rw [autoLoop_snd_eq sell _ _ hq hpos]
    exact max_eq_left (by linarith)
  have htriples := sim_auto_entries sell hfx
    (available_parcels db sell.security_id fifo) sell.quantity
  refine ⟨(autoLoop sell (available_parcels db sell.security_id fifo)
    sell.quantity).1, ?_, ?_, ?_, ?_, ?_, ?_, ?_, ?_⟩
  · simp only [_match_auto]
    rw [if_neg (by rw [hsnd0]; exact lt_irrefl 0)]
  · simp only [_simulate_strategy]
    exact htriples
  · simp only [_simulate_strategy]
    have h := congrArg
      (List.map fun t : Nat × ℚ × CgtResult => t.2.2.cost_base_aud) htriples
    rw [List.map_map, List.map_map] at h
    exact congrArg List.sum h
  · simp only [_simulate_strategy]
    have h := congrArg
      (List.map fun t : Nat × ℚ × CgtResult => t.2.2.proceeds_aud) htriples
    rw [List.map_map, List.map_map] at h
    exact congrArg List.sum h
  · simp only [_simulate_strategy]
    have h := congrArg
      (List.map fun t : Nat × ℚ × CgtResult => t.2.2.capital_gain_loss) htriples
    rw [List.map_map, List.map_map] at h
    exact congrArg List.sum h
  · simp only [_simulate_strategy]
    have h := congrArg
      (List.map fun t : Nat × ℚ × CgtResult => t.2.2.discount_amount) htriples
    rw [List.map_map, List.map_map] at h
    exact congrArg List.sum h
  · simp only [_simulate_strategy]
    have h := congrArg
      (List.map fun t : Nat × ℚ × CgtResult => t.2.2.net_capital_gain) htriples
    rw [List.map_map, List.map_map] at h
    exact congrArg List.sum h
  · have hidsub := autoLoop_parcelIds_sublist sell
      (available_parcels db sell.security_id fifo) sell.quantity
    have hAperm : ((available_parcels db sell.security_id fifo).map (·.id)).Perm
        ((db.filter fun pp => pp.security_id == sell.security_id &&
          decide (0 < pp.remaining_quantity)).map (·.id)) :=
      (List.perm_insertionSort _ _).map _
    have hfilnodup : ((db.filter fun pp => pp.security_id == sell.security_id &&
        decide (0 < pp.remaining_quantity)).map (·.id)).Nodup :=
      List.Nodup.sublist (List.Sublist.map _ (List.filter_sublist db)) hnodup
    have hAnodup : ((available_parcels db sell.security_id fifo).map
        (·.id)).Nodup := hAperm.nodup_iff.2 hfilnodup
    have hms_nodup : (((autoLoop sell
        (available_parcels db sell.security_id fifo) sell.quantity).1).map
          (·.parcelId)).Nodup :=
      List.Nodup.sublist hidsub hAnodup
    have hok_inputs : ∀ m ∈ (autoLoop sell
        (available_parcels db sell.security_id fifo) sell.quantity).1,
        ∃ p, getParcel db m.parcelId = some p ∧
          m.matched_quantity ≤ p.remaining_quantity := by
      intro m hm
      rcases autoLoop_mem_ok sell _ _ m hm with ⟨p, hpA, hpid, hle⟩
      have hpfil : p ∈ db.filter fun pp => pp.security_id == sell.security_id &&
          decide (0 < pp.remaining_quantity) := by
        unfold available_parcels at hpA
        exact (List.mem_insertionSort _).1 hpA
      have hpdb : p ∈ db := List.mem_of_mem_filter hpfil
      refine ⟨p, ?_, hle⟩
      rw [hpid]
      exact getParcel_of_mem_nodup hnodup hpdb
    rcases confirm_ok_of_distinct _ db hms_nodup hok_inputs with ⟨r, hr⟩
    obtain ⟨db2, sv2⟩ := r
    obtain ⟨hsaved, hdb'⟩ := confirmLoop_ok_eq _ db db2 sv2 hr
    rw [confirm_matches, hr, hsaved, hdb']

/-- A SELL of 3 units of security 1 at FX rate 1, for the equivalence
witness. -/
def equivSellW : Transaction :=
  { security_id := 1
    trade_date := 400
    transaction_type := "SELL"
    quantity := 3
    unit_price := 7
    brokerage := 0
    total_value := 21
    exchange_rate := 1 }

/-- Witness for C2: the concrete 3-unit sell against the 5-unit parcel
satisfies every hypothesis, the allocation succeeds and the commit
persists exactly the proposed allocations. -/
theorem forecast_commit_equivalence_witness :
    (equivSellW.exchange_rate = 1 ∧ 0 ≤ equivSellW.quantity ∧
      ([forecastParcelW].map (·.id)).Nodup ∧
      equivSellW.quantity ≤
        ((available_parcels [forecastParcelW] equivSellW.security_id true).map
          (·.remaining_quantity)).sum) ∧
    ∃ ms, _match_auto equivSellW equivSellW.quantity true [forecastParcelW] = .ok ms ∧
      confirm_matches [forecastParcelW] ms =
        .ok (ms.foldl applyMatch [forecastParcelW], ms) := by
  have hav : equivSellW.quantity ≤
      ((available_parcels [forecastParcelW] equivSellW.security_id true).map
        (·.remaining_quantity)).sum := by
    norm_num [available_parcels, forecastParcelW, equivSellW,
      List.insertionSort, List.orderedInsert, List.filter]
  refine ⟨⟨rfl, by decide, by decide, hav⟩, ?_⟩
  rcases forecast_commit_equivalence [forecastParcelW] equivSellW true rfl
    (by decide) (by decide) hav with ⟨ms, h1, _, _, _, _, _, _, h8⟩
  exact ⟨ms, h1, h8⟩

/-- `tracker/services/cgt.py`, `get_fy_range`: an Australian financial
year `y` runs July 1 of `y − 1` through June 30 of `y`, both inclusive
(as day numbers). -/
def get_fy_range (financial_year : Int) : Int × Int :=
  (daysFromCivil (financial_year - 1) 7 1, daysFromCivil financial_year 6 30)

/-- The window filter of `fy_summary`
(`tracker/services/cgt.py:101-104`): trade date between the financial
year's start and end dates, both inclusive. -/
def inFyWindow (financial_year : Int) (d : Int) : Bool :=
  decide ((get_fy_range financial_year).1 ≤ d) &&
    decide (d ≤ (get_fy_range financial_year).2)

/-- One committed `ParcelMatch` as `fy_summary` reads it after its joins:
the sell transaction's trade date, the parcel's security ticker, and the
stored CGT figures. -/
structure FyRow where
  trade_date : Int
  ticker : String
  capital_gain_loss : ℚ
  discount_amount : ℚ
  net_capital_gain : ℚ
  deriving DecidableEq, Repr

/-- One `per_security` entry of `fy_summary`. -/
structure SecuritySummary where
  ticker : String
  gains : ℚ
  losses : ℚ
  discounts : ℚ
  net : ℚ
  match_count : Nat
  deriving DecidableEq, Repr

/-- The `sorted(..., key=lambda x: x["ticker"])` order of `fy_summary`. -/
def tickerLe (a b : SecuritySummary) : Prop :=
  a.ticker ≤ b.ticker

instance : DecidableRel tickerLe := fun a b => by
  unfold tickerLe
  infer_instance

instance : IsTotal SecuritySummary tickerLe where
  total := fun a b => le_total a.ticker b.ticker

instance : IsTrans SecuritySummary tickerLe where
  trans := fun _ _ _ h1 h2 => le_trans h1 h2

/-- The per-security update of one match
(`tracker/services/cgt.py:133-140`): add the gain to the gains (when
strictly positive) or losses (otherwise) bucket, always add discount and
net gain, bump the count. -/
def updateSecEntry (m : FyRow) (s : SecuritySummary) : SecuritySummary :=
  { s with
    gains := if 0 < m.capital_gain_loss then s.gains + m.capital_gain_loss
      else s.gains
    losses := if 0 < m.capital_gain_loss then s.losses
      else s.losses + m.capital_gain_loss
    discounts := s.discounts + m.discount_amount
    net := s.net + m.net_capital_gain
    match_count := s.match_count + 1 }

/-- The `per_security` dict update (`tracker/services/cgt.py:123-140`):
insert a zeroed entry on first sight of a ticker (Python dicts keep
insertion order), then apply the per-match update. -/
def insertSec (l : List SecuritySummary) (m : FyRow) : List SecuritySummary :=
  if l.any fun s => s.ticker == m.ticker then
    l.map fun s => if s.ticker == m.ticker then updateSecEntry m s else s
  else
    l ++ [updateSecEntry m
      { ticker := m.ticker, gains := 0, losses := 0, discounts := 0,
        net := 0, match_count := 0 }]

/-- The running accumulators of the `fy_summary` loop
(`tracker/services/cgt.py:106-110`). -/
structure FyAcc where
  total_gains : ℚ
  total_losses : ℚ
  total_discounts : ℚ
  total_net : ℚ
  per_security : List SecuritySummary
  deriving DecidableEq, Repr

/-- One iteration of the `fy_summary` loop
(`tracker/services/cgt.py:112-140`). -/
def fyStep (acc : FyAcc) (m : FyRow) : FyAcc :=
  { total_gains := if 0 < m.capital_gain_loss then
      acc.total_gains + m.capital_gain_loss else acc.total_gains
    total_losses := if 0 < m.capital_gain_loss then acc.total_losses
      else acc.total_losses + m.capital_gain_loss
    total_discounts := acc.total_discounts + m.discount_amount
    total_net := acc.total_net + m.net_capital_gain
    per_security := insertSec acc.per_security m }

/-- The result dict of `fy_summary` (the `fy_label` string is omitted). -/
structure FySummary where
  financial_year : Int
  start_date : Int
  end_date : Int
  total_gains : ℚ
  total_losses : ℚ
  total_discounts : ℚ
  net_capital_gain : ℚ
  match_count : Nat
  per_security : List SecuritySummary
  deriving DecidableEq, Repr

/-- `tracker/services/cgt.py`, `fy_summary`: filter the committed matches
to the financial-year window, run the accumulator loop, and sort the
per-security breakdown by ticker. -/
def fy_summary (rows : List FyRow) (financial_year : Int) : FySummary :=
  let fy_start := (get_fy_range financial_year).1
  let fy_end := (get_fy_range financial_year).2
  let fyMatches := rows.filter fun m => inFyWindow financial_year m.trade_date
  let acc := fyMatches.foldl fyStep
    { total_gains := 0, total_losses := 0, total_discounts := 0,
      total_net := 0, per_security := [] }
  { financial_year := financial_year
    start_date := fy_start
    end_date := fy_end
    total_gains := acc.total_gains
    total_losses := acc.total_losses
    total_discounts := acc.total_discounts
    net_capital_gain := acc.total_net
    match_count := fyMatches.length
    per_security := acc.per_security.insertionSort tickerLe }

/-- The year-dependent part of `daysFromCivil` for a date with month > 2:
era and year-of-era contributions. -/
def gPart (y : Int) : Int :=
  146097 * (y / 400) + 365 * (y - y / 400 * 400) +
    (y - y / 400 * 400) / 4 - (y - y / 400 * 400) / 100

theorem daysFromCivil_jul1 (y : Int) :
    daysFromCivil y 7 1 = gPart y + 122 - 719468 := by
  simp only [daysFromCivil, gPart]
  norm_num
  ring

theorem daysFromCivil_jun30 (y : Int) :
    daysFromCivil y 6 30 = gPart y + 121 - 719468 := by
  simp only [daysFromCivil, gPart]
  norm_num
  ring

theorem gPart_mono (y : Int) : gPart (y - 1) + 1 ≤ gPart y := by
  unfold gPart
  have e1 := Int.ediv_add_emod (y - 1) 400
  have e2 := Int.emod_nonneg (y - 1) (by norm_num : (400 : Int) ≠ 0)
  have e3 := Int.emod_lt_of_pos (y - 1) (by norm_num : (0 : Int) < 400)
  have f1 := Int.ediv_add_emod y 400
  have f2 := Int.emod_nonneg y (by norm_num : (400 : Int) ≠ 0)
  have f3 := Int.emod_lt_of_pos y (by norm_num : (0 : Int) < 400)
  have hr1 : y - 1 - (y - 1) / 400 * 400 = (y - 1) % 400 := by linarith
  have hr2 : y - y / 400 * 400 = y % 400 := by linarith
  rw [hr1, hr2]
  have b1 := Int.ediv_add_emod ((y - 1) % 400) 4
  have b2 := Int.emod_nonneg ((y - 1) % 400) (by norm_num : (4 : Int) ≠ 0)
  have b3 := Int.emod_lt_of_pos ((y - 1) % 400) (by norm_num : (0 : Int) < 4)
  have c1 := Int.ediv_add_emod ((y - 1) % 400) 100
  have c2 := Int.emod_nonneg ((y - 1) % 400) (by norm_num : (100 : Int) ≠ 0)
  have c3 := Int.emod_lt_of_pos ((y - 1) % 400) (by norm_num : (0 : Int) < 100)
  have d1 := Int.ediv_add_emod (y % 400) 4
  have d2 := Int.emod_nonneg (y % 400) (by norm_num : (4 : Int) ≠ 0)
  have d3 := Int.emod_lt_of_pos (y % 400) (by norm_num : (0 : Int) < 4)
  have g1 := Int.ediv_add_emod (y % 400) 100
  have g2 := Int.emod_nonneg (y % 400) (by norm_num : (100 : Int) ≠ 0)
  have g3 := Int.emod_lt_of_pos (y % 400) (by norm_num : (0 : Int) < 100)
  omega

theorem fy_start_le_jun30 (y : Int) :
    daysFromCivil (y - 1) 7 1 ≤ daysFromCivil y 6 30 := by
  rw [daysFromCivil_jul1, daysFromCivil_jun30]
  have := gPart_mono y
  omega

theorem jun30_lt_jul1 (y : Int) :
    daysFromCivil y 6 30 < daysFromCivil y 7 1 := by
  rw [daysFromCivil_jul1, daysFromCivil_jun30]
  omega

theorem jul1_le_next_jun30 (y : Int) :
    daysFromCivil y 7 1 ≤ daysFromCivil (y + 1) 6 30 := by
  have h := fy_start_le_jun30 (y + 1)
  have hy : y + 1 - 1 = y := by ring
  rw [hy] at h
  exact h

theorem fy_foldl_totals :
    ∀ (l : List FyRow) (a : FyAcc),
      (l.foldl fyStep a).total_gains = a.total_gains +
        ((l.filter fun m => decide (0 < m.capital_gain_loss)).map
          (·.capital_gain_loss)).sum ∧
      (l.foldl fyStep a).total_losses = a.total_losses +
        ((l.filter fun m => !decide (0 < m.capital_gain_loss)).map
          (·.capital_gain_loss)).sum ∧
      (l.foldl fyStep a).total_discounts = a.total_discounts +
        (l.map (·.discount_amount)).sum ∧
      (l.foldl fyStep a).total_net = a.total_net +
        (l.map (·.net_capital_gain)).sum := by
  intro l
  induction l with
  | nil => intro a; simp
  | cons m l ih =>
    intro a
    obtain ⟨ih1, ih2, ih3, ih4⟩ := ih (fyStep a m)
    simp only [List.foldl_cons]
    by_cases hg : 0 < m.capital_gain_loss
    · refine ⟨?_, ?_, ?_, ?_⟩
      · rw [ih1]
        simp only [fyStep, List.filter, hg, decide_True, if_true, List.map_cons,
          List.sum_cons]
        ring
      · rw [ih2]
        simp only [fyStep, List.filter, hg, decide_True, if_true,
          Bool.not_true]
      · rw [ih3]
        simp only [fyStep, List.map_cons, List.sum_cons]
        ring
      · rw [ih4]
        simp only [fyStep, List.map_cons, List.sum_cons]
        ring
    · refine ⟨?_, ?_, ?_, ?_⟩
      · rw [ih1]
        simp only [fyStep, List.filter, hg, decide_False, if_false,
          Bool.false_eq_true]
      · rw [ih2]
        simp only [fyStep, List.filter, hg, decide_False, if_false,
          Bool.not_false, List.map_cons, List.sum_cons, Bool.false_eq_true]
        ring
      · rw [ih3]
        simp only [fyStep, List.map_cons, List.sum_cons]
        ring
      · rw [ih4]
        simp only [fyStep, List.map_cons, List.sum_cons]
        ring

/-- C9: `fy_summary year` aggregates exactly the committed allocations
whose sell trade date lies in the inclusive window July 1 of `year − 1`
through June 30 of `year` (June 30 of `year` is in `year`'s window; July 1
of `year` is not — it is in `year + 1`'s window); each in-window
allocation's gross gain/loss goes to the gains total when strictly
positive and to the losses total otherwise, discount and net gain are
summed regardless of sign, and the per-security breakdown is sorted by
ticker. -/
theorem fy_summary_spec (rows : List FyRow) (y : Int) :
    (fy_summary rows y).start_date = daysFromCivil (y - 1) 7 1 ∧
    (fy_summary rows y).end_date = daysFromCivil y 6 30 ∧
    inFyWindow y (daysFromCivil y 6 30) = true ∧
    inFyWindow y (daysFromCivil y 7 1) = false ∧
    inFyWindow (y + 1) (daysFromCivil y 7 1) = true ∧
    (fy_summary rows y).total_gains =
      (((rows.filter fun m => inFyWindow y m.trade_date).filter
        fun m => decide (0 < m.capital_gain_loss)).map
          (·.capital_gain_loss)).sum ∧
    (fy_summary rows y).total_losses =
      (((rows.filter fun m => inFyWindow y m.trade_date).filter
        fun m => !decide (0 < m.capital_gain_loss)).map
          (·.capital_gain_loss)).sum ∧
    (fy_summary rows y).total_discounts =
      ((rows.filter fun m => inFyWindow y m.trade_date).map
        (·.discount_amount)).sum ∧
    (fy_summary rows y).net_capital_gain =
      ((rows.filter fun m => inFyWindow y m.trade_date).map
        (·.net_capital_gain)).sum ∧
    (fy_summary rows y).match_count =
      (rows.filter fun m => inFyWindow y m.trade_date).length ∧
    List.Pairwise tickerLe (fy_summary rows y).per_security := by
  have htot := fy_foldl_totals (rows.filter fun m => inFyWindow y m.trade_date)
    { total_gains := 0, total_losses := 0, total_discounts := 0,
      total_net := 0, per_security := [] }
  refine ⟨rfl, rfl, ?_, ?_, ?_, ?_, ?_, ?_, ?_, rfl, ?_⟩
  · simp only [inFyWindow, get_fy_range, Bool.and_eq_true, decide_eq_true_eq]
    exact ⟨fy_start_le_jun30 y, le_refl _⟩
  · simp only [inFyWindow, get_fy_range]
    have h := jun30_lt_jul1 y
    simp only [Bool.and_eq_false_iff, decide_eq_false_iff_not, not_le]
    right
    exact h
  · simp only [inFyWindow, get_fy_range, Bool.and_eq_true, decide_eq_true_eq]
    constructor
    · have hy : y + 1 - 1 = y := by ring
      rw [hy]
    · exact jul1_le_next_jun30 y
  · simp only [fy_summary]
    rw [htot.1]
    exact zero_add _
  · simp only [fy_summary]
    rw [htot.2.1]
    exact zero_add _
  · simp only [fy_summary]
    rw [htot.2.2.1]
    exact zero_add _
  · simp only [fy_summary]
    rw [htot.2.2.2]
    exact zero_add _
  · simp only [fy_summary]
    exact List.sorted_insertionSort tickerLe _

end ShareParcelTracker
